import Mathlib

/-!
Shallow embedding of `graphix_stim_compiler.py` (the `StimCliffordPass`
compilation pass and the `pauli_string_to_stim` encoder).

Qubit identifiers are modelled as natural numbers.  Python sets become
`Finset ℕ`, Python dicts become `ℕ → Option PauliString` (a missing key is
`none`), and exceptions become an explicit error type threaded through
`Except` / an error component.  The two external collaborators are
abstracted:

* `initialize_circuit` (from `graphix.circ_ext.compilation`) produces the
  starting circuit; its result is the `c0` argument of `add_to_circuit`.
* `stim.Tableau.to_circuit` (the synthesis engine) is an oracle parameter
  `synth : Tableau → SynthMethod → List Instruction`; theorems quantify
  over all oracles.

A `stim.Tableau` built by `from_conjugated_generators` is modelled by its
two ordered generator lists, exactly the data the source passes to the
constructor.
-/

namespace GSC

/-- Errors surfaced by the code: `ValueError` from `pauli_string_to_stim`
(`invalidOperator`), `NotImplementedError` from the isometry check
(`unsupportedIsometry`), Python `KeyError` on a dict lookup miss
(`keyError`), and the `ValueError` a Python tuple unpack would raise on a
malformed operand group (`unpackError`). -/
inductive Err where
  | invalidOperator
  | unsupportedIsometry
  | keyError
  | unpackError
  deriving DecidableEq

/-- `graphix.circ_ext.extraction.PauliString`: three node sets and a sign. -/
structure PauliString where
  x_nodes : Finset ℕ
  y_nodes : Finset ℕ
  z_nodes : Finset ℕ
  negative_sign : Bool
  deriving DecidableEq

/-- `ps.x_nodes | ps.y_nodes | ps.z_nodes` from the source's subset check. -/
def PauliString.nodes (ps : PauliString) : Finset ℕ :=
  ps.x_nodes ∪ ps.y_nodes ∪ ps.z_nodes

/-- The per-node symbol chosen by the `if/elif/elif/else` chain in the
loop body of `pauli_string_to_stim`. -/
def pauliChar (ps : PauliString) (node : ℕ) : Char :=
  if node ∈ ps.x_nodes then 'X'
  else if node ∈ ps.y_nodes then 'Y'
  else if node ∈ ps.z_nodes then 'Z'
  else '_'

/-- `pauli_string_to_stim(ps, outputs)`: reject when the union of the node
sets is not a subset of `outputs` (a `ValueError`), otherwise emit the sign
symbol followed by one symbol per output node, in output order.  The final
`stim.PauliString(...)` constructor only re-parses this character string,
so the string itself is the function's result here. -/
def pauli_string_to_stim (ps : PauliString) (outputs : List ℕ) :
    Except Err (List Char) :=
  if ¬ ps.nodes ⊆ outputs.toFinset then
    Except.error Err.invalidOperator
  else
    Except.ok ((if ps.negative_sign then '-' else '+') :: outputs.map (pauliChar ps))

/-- `graphix.circ_ext.extraction.CliffordMap`: ordered node sequences and
the two generator-image dicts. -/
structure CliffordMap where
  input_nodes : List ℕ
  output_nodes : List ℕ
  x_map : ℕ → Option PauliString
  z_map : ℕ → Option PauliString

/-- A `stim.Tableau` made by `from_conjugated_generators`, modelled by the
two ordered lists `xs`, `zs` of encoded Pauli strings handed to it. -/
abbrev Tableau := List (List Char) × List (List Char)

/-- The `for node in clifford_map.input_nodes` loop of
`clifford_map_to_stim_tableau`: per node, look up `x_map[node]` (a missing
key raises `KeyError`), encode it, then the same for `z_map[node]`,
appending to the parallel lists `xs` and `zs`. -/
def assembleGenerators (cm : CliffordMap) : List ℕ → Except Err Tableau
  | [] => Except.ok ([], [])
  | node :: rest =>
    match cm.x_map node with
    | none => Except.error Err.keyError
    | some px =>
      match pauli_string_to_stim px cm.output_nodes with
      | Except.error e => Except.error e
      | Except.ok sx =>
        match cm.z_map node with
        | none => Except.error Err.keyError
        | some pz =>
          match pauli_string_to_stim pz cm.output_nodes with
          | Except.error e => Except.error e
          | Except.ok sz =>
            match assembleGenerators cm rest with
            | Except.error e => Except.error e
            | Except.ok (xs, zs) => Except.ok (sx :: xs, sz :: zs)

/-- `StimCliffordPass.clifford_map_to_stim_tableau`: raise
`NotImplementedError` when the input and output node counts differ,
otherwise assemble the conjugated generators. -/
def clifford_map_to_stim_tableau (cm : CliffordMap) : Except Err Tableau :=
  if cm.input_nodes.length ≠ cm.output_nodes.length then
    Except.error Err.unsupportedIsometry
  else
    assembleGenerators cm cm.input_nodes

/-- The gates `graphix.transpiler.Circuit` receives: `circuit.cnot`,
`circuit.h`, `circuit.s`. -/
inductive Gate where
  | cnot (control target : ℕ)
  | h (q : ℕ)
  | s (q : ℕ)
  deriving DecidableEq

/-- The target circuit, modelled by its gate list in application order. -/
abbrev Circuit := List Gate

/-- A `stim.CircuitInstruction`: its `name` and its `target_groups()`,
each group the list of `qubit_value`s of its targets. -/
structure Instruction where
  name : String
  targets : List (List ℕ)
  deriving DecidableEq

/-- The two method strings accepted by `stim.Tableau.to_circuit`. -/
inductive SynthMethod where
  | elimination
  | graph_state
  deriving DecidableEq

/-- `for control, target in instruction.target_groups(): circuit.cnot(...)`.
A group that is not a pair would fail Python tuple unpacking, after the
earlier pairs of the same instruction were already applied. -/
def replayGroupsCX : List (List ℕ) → Circuit → Circuit × Option Err
  | [], c => (c, none)
  | g :: rest, c =>
    match g with
    | [ctrl, tgt] => replayGroupsCX rest (c ++ [Gate.cnot ctrl tgt])
    | _ => (c, some Err.unpackError)

/-- `for (qubit,) in instruction.target_groups(): circuit.h(...)` (and the
same shape for `circuit.s`). -/
def replayGroupsSingle (mk : ℕ → Gate) : List (List ℕ) → Circuit → Circuit × Option Err
  | [], c => (c, none)
  | g :: rest, c =>
    match g with
    | [q] => replayGroupsSingle mk rest (c ++ [mk q])
    | _ => (c, some Err.unpackError)

/-- The `match instruction.name` dispatch in `add_to_circuit`.  Python's
structural `match` on a string is sequential equality testing, and the
source has no default case: a name outside `"CX"`, `"H"`, `"S"` falls
through with no effect. -/
def replayInstruction (instr : Instruction) (c : Circuit) : Circuit × Option Err :=
  if instr.name = "CX" then replayGroupsCX instr.targets c
  else if instr.name = "H" then replayGroupsSingle Gate.h instr.targets c
  else if instr.name = "S" then replayGroupsSingle Gate.s instr.targets c
  else (c, none)

/-- `for instruction in stim_circuit:` — replay the gate stream in order,
stopping at the first error with the circuit in its state at that point. -/
def replayLoop : List Instruction → Circuit → Circuit × Option Err
  | [], c => (c, none)
  | instr :: rest, c =>
    match replayInstruction instr c with
    | (c2, none) => replayLoop rest c2
    | (c2, some e) => (c2, some e)

/-- `StimCliffordPass.to_stim_circuit`: build the tableau, then delegate to
the external `to_circuit(method)`, abstracted as the oracle `synth`. -/
def to_stim_circuit (synth : Tableau → SynthMethod → List Instruction)
    (cm : CliffordMap) (method : SynthMethod) : Except Err (List Instruction) :=
  match clifford_map_to_stim_tableau cm with
  | Except.error e => Except.error e
  | Except.ok tab => Except.ok (synth tab method)

/-- `StimCliffordPass.add_to_circuit` after `initialize_circuit`: `c0` is
the circuit the external initializer produced.  The method is fixed to
`"elimination"`.  The result pairs the final circuit state with the raised
error, if any. -/
def add_to_circuit (synth : Tableau → SynthMethod → List Instruction)
    (cm : CliffordMap) (c0 : Circuit) : Circuit × Option Err :=
  match to_stim_circuit synth cm SynthMethod.elimination with
  | Except.error e => (c0, some e)
  | Except.ok stream => replayLoop stream c0

/-- Gates contributed by one `CX` operand group: the pair as control then
target. -/
def cxPairGates (g : List ℕ) : List Gate :=
  match g with
  | [ctrl, tgt] => [Gate.cnot ctrl tgt]
  | _ => []

/-- Gates contributed by one single-qubit operand group. -/
def singleGates (mk : ℕ → Gate) (g : List ℕ) : List Gate :=
  match g with
  | [q] => [mk q]
  | _ => []

/-- Concatenation of per-group gates, in listed group order. -/
def groupsGates (f : List ℕ → List Gate) : List (List ℕ) → List Gate
  | [] => []
  | g :: rest => f g ++ groupsGates f rest

/-- All gates one instruction contributes, in listed order. -/
def instructionGates (instr : Instruction) : List Gate :=
  if instr.name = "CX" then groupsGates cxPairGates instr.targets
  else if instr.name = "H" then groupsGates (singleGates Gate.h) instr.targets
  else if instr.name = "S" then groupsGates (singleGates Gate.s) instr.targets
  else []

/-- All gates a stream contributes, instruction by instruction in emitted
order. -/
def streamGates : List Instruction → List Gate
  | [] => []
  | instr :: rest => instructionGates instr ++ streamGates rest

/-- A `CX` operand group as `stim` emits it: exactly two targets. -/
def WfGroupPair (g : List ℕ) : Prop := ∃ ctrl tgt, g = [ctrl, tgt]

/-- A single-qubit operand group as `stim` emits it: exactly one target. -/
def WfGroupSingle (g : List ℕ) : Prop := ∃ q, g = [q]

/-- An instruction as the elimination synthesis contract guarantees it:
opcode in {CX, H, S} with operand groups of the right arity. -/
def WfInstruction (instr : Instruction) : Prop :=
  (instr.name = "CX" ∧ ∀ g ∈ instr.targets, WfGroupPair g) ∨
  ((instr.name = "H" ∨ instr.name = "S") ∧ ∀ g ∈ instr.targets, WfGroupSingle g)

/-! ### Helper lemmas -/

theorem pauli_string_to_stim_ok (ps : PauliString) (outputs : List ℕ)
    (hsub : ps.nodes ⊆ outputs.toFinset) :
    pauli_string_to_stim ps outputs =
      Except.ok ((if ps.negative_sign then '-' else '+') :: outputs.map (pauliChar ps)) := by
  simp [pauli_string_to_stim, hsub]

theorem pauli_string_to_stim_error_eq (ps : PauliString) (outputs : List ℕ) (e : Err)
    (h : pauli_string_to_stim ps outputs = Except.error e) :
    e = Err.invalidOperator := by
  by_cases hsub : ps.nodes ⊆ outputs.toFinset
  · rw [pauli_string_to_stim_ok ps outputs hsub] at h
    exact absurd h (by simp)
  · simp [pauli_string_to_stim, hsub] at h
    exact h.symm

theorem replayGroupsCX_wf (groups : List (List ℕ)) (c : Circuit)
    (h : ∀ g ∈ groups, WfGroupPair g) :
    replayGroupsCX groups c = (c ++ groupsGates cxPairGates groups, none) := by
  induction groups generalizing c with
  | nil => simp [replayGroupsCX, groupsGates]
  | cons g rest ih =>
    obtain ⟨ctrl, tgt, rfl⟩ := h g (List.mem_cons_self g rest)
    rw [replayGroupsCX]
    simp only [groupsGates, cxPairGates]
    rw [ih _ fun g hg => h g (List.mem_cons_of_mem _ hg)]
    simp [List.append_assoc]

theorem replayGroupsSingle_wf (mk : ℕ → Gate) (groups : List (List ℕ)) (c : Circuit)
    (h : ∀ g ∈ groups, WfGroupSingle g) :
    replayGroupsSingle mk groups c = (c ++ groupsGates (singleGates mk) groups, none) := by
  induction groups generalizing c with
  | nil => simp [replayGroupsSingle, groupsGates]
  | cons g rest ih =>
    obtain ⟨q, rfl⟩ := h g (List.mem_cons_self g rest)
    rw [replayGroupsSingle]
    simp only [groupsGates, singleGates]
    rw [ih _ fun g hg => h g (List.mem_cons_of_mem _ hg)]
    simp [List.append_assoc]

theorem replayInstruction_wf (instr : Instruction) (c : Circuit)
    (h : WfInstruction instr) :
    replayInstruction instr c = (c ++ instructionGates instr, none) := by
  rcases h with ⟨hname, hg⟩ | ⟨hname | hname, hg⟩
  · simp only [replayInstruction, instructionGates, hname]
    simp [replayGroupsCX_wf _ _ hg]
  · simp only [replayInstruction, instructionGates, hname]
    simp [replayGroupsSingle_wf _ _ _ hg]
  · simp only [replayInstruction, instructionGates, hname]
    simp [replayGroupsSingle_wf _ _ _ hg]

theorem replayLoop_wf (stream : List Instruction) (c : Circuit)
    (h : ∀ instr ∈ stream, WfInstruction instr) :
    replayLoop stream c = (c ++ streamGates stream, none) := by
  induction stream generalizing c with
  | nil => simp [replayLoop, streamGates]
  | cons instr rest ih =>
    rw [replayLoop, replayInstruction_wf instr c (h instr (List.mem_cons_self instr rest))]
    exact (ih _ fun i hi => h i (List.mem_cons_of_mem _ hi)).trans
      (by simp [streamGates, List.append_assoc])

/-! ### Claim theorems: the Pauli encoder -/

/-- C3: with pairwise-disjoint node sets and `outputs` covering the nodes,
position `i + 1` of the encoding is `X` when `outputs[i]` is an X node,
`Y` when a Y node, `Z` when a Z node, and the identity symbol `_` when it
is in none of the three sets; the identity case succeeds and is not an
error. -/
theorem encode_position_symbols (ps : PauliString) (outputs : List ℕ)
    (hxy : Disjoint ps.x_nodes ps.y_nodes) (hxz : Disjoint ps.x_nodes ps.z_nodes)
    (hyz : Disjoint ps.y_nodes ps.z_nodes)
    (hsub : ps.nodes ⊆ outputs.toFinset) (i : ℕ) (hi : i < outputs.length) :
    ∃ enc, pauli_string_to_stim ps outputs = Except.ok enc ∧
      (outputs[i] ∈ ps.x_nodes → enc[i + 1]? = some 'X') ∧
      (outputs[i] ∈ ps.y_nodes → enc[i + 1]? = some 'Y') ∧
      (outputs[i] ∈ ps.z_nodes → enc[i + 1]? = some 'Z') ∧
      (outputs[i] ∉ ps.x_nodes → outputs[i] ∉ ps.y_nodes → outputs[i] ∉ ps.z_nodes →
        enc[i + 1]? = some '_') := by
  refine ⟨_, pauli_string_to_stim_ok ps outputs hsub, ?_, ?_, ?_, ?_⟩
  · intro hx
    simp [List.getElem?_eq_getElem, hi, pauliChar, hx]
  · intro hy
    have hnx : outputs[i] ∉ ps.x_nodes := Finset.disjoint_right.mp hxy hy
    simp [List.getElem?_eq_getElem, hi, pauliChar, hy, hnx]
  · intro hz
    have hnx : outputs[i] ∉ ps.x_nodes := Finset.disjoint_right.mp hxz hz
    have hny : outputs[i] ∉ ps.y_nodes := Finset.disjoint_right.mp hyz hz
    simp [List.getElem?_eq_getElem, hi, pauliChar, hz, hnx, hny]
  · intro hnx hny hnz
    simp [List.getElem?_eq_getElem, hi, pauliChar, hnx, hny, hnz]

/-- C3 witness: the test vector of `test_pauli_string_to_stim`, inspected
at position 2 (a Y node). -/
theorem encode_position_symbols_witness :
    ∃ enc, pauli_string_to_stim ⟨{1, 4}, {2}, {5}, true⟩ [0, 1, 2, 3, 4, 5, 6] = Except.ok enc ∧
      ((2 : ℕ) ∈ ({1, 4} : Finset ℕ) → enc[3]? = some 'X') ∧
      ((2 : ℕ) ∈ ({2} : Finset ℕ) → enc[3]? = some 'Y') ∧
      ((2 : ℕ) ∈ ({5} : Finset ℕ) → enc[3]? = some 'Z') ∧
      ((2 : ℕ) ∉ ({1, 4} : Finset ℕ) → (2 : ℕ) ∉ ({2} : Finset ℕ) → (2 : ℕ) ∉ ({5} : Finset ℕ) →
        enc[3]? = some '_') :=
  encode_position_symbols ⟨{1, 4}, {2}, {5}, true⟩ [0, 1, 2, 3, 4, 5, 6]
    (by decide) (by decide) (by decide) (by decide) 2 (by decide)

/-- C4: the first symbol of the encoding is `-` exactly when
`negative_sign` is true, and `+` exactly when it is false. -/
theorem encode_sign_fidelity (ps : PauliString) (outputs : List ℕ)
    (hsub : ps.nodes ⊆ outputs.toFinset) :
    ∃ enc, pauli_string_to_stim ps outputs = Except.ok enc ∧
      (enc[0]? = some '-' ↔ ps.negative_sign = true) ∧
      (enc[0]? = some '+' ↔ ps.negative_sign = false) := by
  refine ⟨_, pauli_string_to_stim_ok ps outputs hsub, ?_, ?_⟩ <;>
    cases hneg : ps.negative_sign <;> simp

/-- C4 witness: the empty operator over no outputs, positive sign. -/
theorem encode_sign_fidelity_witness :
    ∃ enc, pauli_string_to_stim ⟨∅, ∅, ∅, false⟩ [] = Except.ok enc ∧
      (enc[0]? = some '-' ↔ false = true) ∧
      (enc[0]? = some '+' ↔ false = false) :=
  encode_sign_fidelity ⟨∅, ∅, ∅, false⟩ [] (by decide)

/-- C6: encoding fails, and fails with the invalid-operator error, exactly
when the union of the three node sets is not a subset of `outputs`; no
other error can come out of the encoder. -/
theorem encode_error_iff (ps : PauliString) (outputs : List ℕ) :
    ((∃ e, pauli_string_to_stim ps outputs = Except.error e) ↔
        ¬ ps.nodes ⊆ outputs.toFinset) ∧
    (pauli_string_to_stim ps outputs = Except.error Err.invalidOperator ↔
        ¬ ps.nodes ⊆ outputs.toFinset) := by
  by_cases hsub : ps.nodes ⊆ outputs.toFinset <;>
    simp [pauli_string_to_stim, hsub]

/-- C8: on the subset precondition the encoder succeeds and its output has
length `1 + len(outputs)`: one sign symbol plus one Pauli symbol per
output.  (Determinism and absence of side effects are inherent: the
embedding is a pure function of its two arguments.) -/
theorem encode_length (ps : PauliString) (outputs : List ℕ)
    (hsub : ps.nodes ⊆ outputs.toFinset) :
    ∃ enc, pauli_string_to_stim ps outputs = Except.ok enc ∧
      enc.length = 1 + outputs.length :=
  ⟨_, pauli_string_to_stim_ok ps outputs hsub, by simp [Nat.add_comm]⟩

/-- C8 witness: a one-node X operator over two outputs encodes to a
three-symbol string. -/
theorem encode_length_witness :
    ∃ enc, pauli_string_to_stim ⟨{0}, ∅, ∅, false⟩ [0, 1] = Except.ok enc ∧
      enc.length = 1 + 2 :=
  encode_length ⟨{0}, ∅, ∅, false⟩ [0, 1] (by decide)

/-- C9: the encoder never validates disjointness; a PauliString with
overlapping node sets still encodes successfully whenever the union is a
subset of `outputs`, and an overlapping node is resolved by the fixed
precedence of the `if/elif` chain: `X` if it is an X node, else `Y` if a Y
node, else `Z`. -/
theorem encode_overlap_precedence (ps : PauliString) (outputs : List ℕ)
    (hsub : ps.nodes ⊆ outputs.toFinset) :
    ∃ enc, pauli_string_to_stim ps outputs = Except.ok enc ∧
      ∀ i, (hi : i < outputs.length) →
        enc[i + 1]? = some (if outputs[i] ∈ ps.x_nodes then 'X'
          else if outputs[i] ∈ ps.y_nodes then 'Y'
          else if outputs[i] ∈ ps.z_nodes then 'Z'
          else '_') := by
  refine ⟨_, pauli_string_to_stim_ok ps outputs hsub, ?_⟩
  intro i hi
  simp [List.getElem?_eq_getElem, hi, pauliChar]

/-- C9 witness: a node lying in all three sets at once is accepted and
encoded as `X`. -/
theorem encode_overlap_precedence_witness :
    ∃ enc, pauli_string_to_stim ⟨{1}, {1}, {1}, false⟩ [1] = Except.ok enc ∧
      ∀ i, (hi : i < ([1] : List ℕ).length) →
        enc[i + 1]? = some (if ([1] : List ℕ)[i] ∈ ({1} : Finset ℕ) then 'X'
          else if ([1] : List ℕ)[i] ∈ ({1} : Finset ℕ) then 'Y'
          else if ([1] : List ℕ)[i] ∈ ({1} : Finset ℕ) then 'Z'
          else '_') :=
  encode_overlap_precedence ⟨{1}, {1}, {1}, false⟩ [1] (by decide)

/-! ### Claim theorems: tableau assembly -/

/-- C5: whenever the input and output node counts differ, tableau assembly
fails with the unsupported-isometry error.  The theorem holds for every
`x_map`/`z_map` — including maps under which any encoding attempt would
fail or any lookup would miss — so the check fires before any PauliString
is looked up or encoded. -/
theorem tableau_isometry_rejected (cm : CliffordMap)
    (h : cm.input_nodes.length ≠ cm.output_nodes.length) :
    clifford_map_to_stim_tableau cm = Except.error Err.unsupportedIsometry := by
  simp [clifford_map_to_stim_tableau, h]

/-- C5 witness: one input node, no output nodes, empty maps. -/
theorem tableau_isometry_rejected_witness :
    clifford_map_to_stim_tableau ⟨[0], [], fun _ => none, fun _ => none⟩ =
      Except.error Err.unsupportedIsometry :=
  tableau_isometry_rejected ⟨[0], [], fun _ => none, fun _ => none⟩ (by decide)

theorem assembleGenerators_ne_keyError (cm : CliffordMap) (l : List ℕ)
    (h : ∀ n ∈ l, (cm.x_map n).isSome ∧ (cm.z_map n).isSome) :
    assembleGenerators cm l ≠ Except.error Err.keyError := by
  induction l with
  | nil => simp [assembleGenerators]
  | cons node rest ih =>
    have hx := (h node (List.mem_cons_self node rest)).1
    have hz := (h node (List.mem_cons_self node rest)).2
    rw [assembleGenerators]
    split
    · rename_i heq
      rw [heq] at hx
      simp at hx
    · rename_i px heq
      split
      · rename_i e hex
        have he := pauli_string_to_stim_error_eq _ _ e hex
        subst he
        simp
      · rename_i sx hex
        split
        · rename_i heqz
          rw [heqz] at hz
          simp at hz
        · rename_i pz heqz
          split
          · rename_i e hez
            have he := pauli_string_to_stim_error_eq _ _ e hez
            subst he
            simp
          · rename_i sz hez
            split
            · rename_i e hrec
              have hne := ih fun n hn => h n (List.mem_cons_of_mem _ hn)
              rw [hrec] at hne
              exact hne
            · rename_i xs zs hrec
              simp

theorem assembleGenerators_miss (cm : CliffordMap) (l : List ℕ)
    (hsub : ∀ n ∈ l, ∀ p : PauliString,
        cm.x_map n = some p ∨ cm.z_map n = some p → p.nodes ⊆ cm.output_nodes.toFinset)
    (hex : ∃ n ∈ l, cm.x_map n = none ∨ cm.z_map n = none) :
    assembleGenerators cm l = Except.error Err.keyError := by
  induction l with
  | nil => simp at hex
  | cons node rest ih =>
    rw [assembleGenerators]
    split
    · rfl
    · rename_i px heq
      have hokx := pauli_string_to_stim_ok px cm.output_nodes
        (hsub node (List.mem_cons_self node rest) px (Or.inl heq))
      split
      · rename_i e hex2
        rw [hokx] at hex2
        exact absurd hex2 (by simp)
      · rename_i sx hex2
        split
        · rfl
        · rename_i pz heqz
          have hokz := pauli_string_to_stim_ok pz cm.output_nodes
            (hsub node (List.mem_cons_self node rest) pz (Or.inr heqz))
          split
          · rename_i e hez
            rw [hokz] at hez
            exact absurd hez (by simp)
          · rename_i sz hez
            obtain ⟨n, hn, hmiss⟩ := hex
            rcases List.mem_cons.mp hn with rfl | hn2
            · rcases hmiss with hm | hm
              · rw [heq] at hm
                exact absurd hm (by simp)
              · rw [heqz] at hm
                exact absurd hm (by simp)
            · have hrec := ih (fun m hm2 => hsub m (List.mem_cons_of_mem _ hm2))
                ⟨n, hn2, hmiss⟩
              rw [hrec]

/-- C10: the assembly loop looks `x_map[node]` and `z_map[node]` up for
every input node.  When both maps contain every input node as a key, the
key-lookup failure is unreachable; when some input node is missing (and
the isometry check and the encodings themselves raise nothing earlier),
the call fails with a `KeyError`-style error that is distinct from the
spec's declared invalid-operator and unsupported-isometry kinds. -/
theorem tableau_key_lookup (cm : CliffordMap) :
    ((∀ n ∈ cm.input_nodes, (cm.x_map n).isSome ∧ (cm.z_map n).isSome) →
        clifford_map_to_stim_tableau cm ≠ Except.error Err.keyError) ∧
    (cm.input_nodes.length = cm.output_nodes.length →
      (∀ n ∈ cm.input_nodes, ∀ p : PauliString,
          cm.x_map n = some p ∨ cm.z_map n = some p → p.nodes ⊆ cm.output_nodes.toFinset) →
      (∃ n ∈ cm.input_nodes, cm.x_map n = none ∨ cm.z_map n = none) →
        clifford_map_to_stim_tableau cm = Except.error Err.keyError) ∧
    (Err.keyError ≠ Err.invalidOperator ∧ Err.keyError ≠ Err.unsupportedIsometry) := by
  refine ⟨?_, ?_, by simp, by simp⟩
  · intro h
    by_cases hlen : cm.input_nodes.length ≠ cm.output_nodes.length
    · simp [clifford_map_to_stim_tableau, hlen]
    · rw [clifford_map_to_stim_tableau, if_neg hlen]
      exact assembleGenerators_ne_keyError cm cm.input_nodes h
  · intro hlen hsub hex
    rw [clifford_map_to_stim_tableau, if_neg (by simp [hlen])]
    exact assembleGenerators_miss cm cm.input_nodes hsub hex

/-- C10 witness: one input node, one output node, both maps empty: the
key-lookup error surfaces. -/
theorem tableau_key_lookup_witness :
    clifford_map_to_stim_tableau ⟨[0], [5], fun _ => none, fun _ => none⟩ =
      Except.error Err.keyError :=
  (tableau_key_lookup ⟨[0], [5], fun _ => none, fun _ => none⟩).2.1 (by decide)
    (by intro n hn p hp; simp at hp)
    ⟨0, by simp, Or.inl rfl⟩

/-! ### Claim theorems: gate-stream replay -/

/-- C1 counterexample: the `match instruction.name` in `add_to_circuit`
has no default arm, so an instruction with the opcode `"T"` — outside
{CX, H, S} — does not make the operation fail: replay completes with no
error and the unknown instruction contributes nothing. -/
theorem replay_unknown_opcode_cex :
    add_to_circuit (fun _ _ => [⟨"T", [[0]]⟩]) ⟨[], [], fun _ => none, fun _ => none⟩ [] =
      ([], none) := by
  decide

/-- C1 (amended): an instruction whose opcode is outside {CX, H, S} is
silently skipped by the dispatch: the circuit is unchanged and no error of
any kind is raised. -/
theorem replay_unknown_opcode_skipped (instr : Instruction) (c : Circuit)
    (h1 : instr.name ≠ "CX") (h2 : instr.name ≠ "H") (h3 : instr.name ≠ "S") :
    replayInstruction instr c = (c, none) := by
  simp [replayInstruction, h1, h2, h3]

/-- C1 witness: a `"T"` instruction leaves a one-gate circuit untouched. -/
theorem replay_unknown_opcode_skipped_witness :
    replayInstruction ⟨"T", [[3, 4]]⟩ [Gate.h 0] = ([Gate.h 0], none) :=
  replay_unknown_opcode_skipped ⟨"T", [[3, 4]]⟩ [Gate.h 0]
    (by decide) (by decide) (by decide)

/-- C2: on a CliffordMap whose input and output node counts differ,
`add_to_circuit` fails with the unsupported-isometry error during tableau
assembly and the circuit is exactly the initializer's output `c0`; in
general (for streams meeting the engine's operand-arity contract), any
error leaves the circuit exactly `c0`, and success replays the full
stream. -/
theorem add_to_circuit_atomic (synth : Tableau → SynthMethod → List Instruction)
    (cm : CliffordMap) (c0 : Circuit)
    (hwf : ∀ tab m, ∀ instr ∈ synth tab m, WfInstruction instr) :
    (cm.input_nodes.length ≠ cm.output_nodes.length →
        add_to_circuit synth cm c0 = (c0, some Err.unsupportedIsometry)) ∧
    (∀ e, (add_to_circuit synth cm c0).2 = some e → (add_to_circuit synth cm c0).1 = c0) ∧
    ((add_to_circuit synth cm c0).2 = none →
        ∃ tab, clifford_map_to_stim_tableau cm = Except.ok tab ∧
          (add_to_circuit synth cm c0).1 =
            c0 ++ streamGates (synth tab SynthMethod.elimination)) := by
  refine ⟨?_, ?_, ?_⟩
  · intro hmis
    simp [add_to_circuit, to_stim_circuit, clifford_map_to_stim_tableau, hmis]
  · intro e he
    cases htab : clifford_map_to_stim_tableau cm with
    | error e2 => simp [add_to_circuit, to_stim_circuit, htab]
    | ok tab =>
      have hadd : add_to_circuit synth cm c0 =
          (c0 ++ streamGates (synth tab SynthMethod.elimination), none) := by
        simp [add_to_circuit, to_stim_circuit, htab,
          replayLoop_wf _ _ (hwf tab SynthMethod.elimination)]
      rw [hadd] at he
      simp at he
  · intro hnone
    cases htab : clifford_map_to_stim_tableau cm with
    | error e2 =>
      have hadd : add_to_circuit synth cm c0 = (c0, some e2) := by
        simp [add_to_circuit, to_stim_circuit, htab]
      rw [hadd] at hnone
      simp at hnone
    | ok tab =>
      have hadd : add_to_circuit synth cm c0 =
          (c0 ++ streamGates (synth tab SynthMethod.elimination), none) := by
        simp [add_to_circuit, to_stim_circuit, htab,
          replayLoop_wf _ _ (hwf tab SynthMethod.elimination)]
      exact ⟨tab, rfl, by rw [hadd]⟩

/-- C2 witness: one input node against zero output nodes; the circuit the
initializer produced (one H gate) comes back untouched next to the
isometry error. -/
theorem add_to_circuit_atomic_witness :
    add_to_circuit (fun _ _ => []) ⟨[0], [], fun _ => none, fun _ => none⟩ [Gate.h 9] =
      ([Gate.h 9], some Err.unsupportedIsometry) :=
  (add_to_circuit_atomic (fun _ _ => []) ⟨[0], [], fun _ => none, fun _ => none⟩ [Gate.h 9]
      (fun _ _ instr hmem => absurd hmem (List.not_mem_nil instr))).1 (by decide)

/-- C7: `add_to_circuit` hands the tableau to the synthesis oracle with
the method fixed to `elimination`, and (for streams meeting the engine's
contract: opcodes in {CX, H, S}, pair groups for CX, singleton groups for
H and S) the gates appended to the circuit are exactly the flattening of
the emitted stream: instructions in emitted order, operand groups of each
instruction in listed order, each CX pair as control then target — no
reordering, batching, or deduplication. -/
theorem add_to_circuit_replay_order (synth : Tableau → SynthMethod → List Instruction)
    (cm : CliffordMap) (c0 : Circuit) (tab : Tableau)
    (htab : clifford_map_to_stim_tableau cm = Except.ok tab)
    (hwf : ∀ instr ∈ synth tab SynthMethod.elimination, WfInstruction instr) :
    add_to_circuit synth cm c0 =
      (c0 ++ streamGates (synth tab SynthMethod.elimination), none) := by
  simp [add_to_circuit, to_stim_circuit, htab, replayLoop_wf _ _ hwf]

/-- C7 witness: a three-instruction stream (H, then a CX pair, then S) is
replayed in exactly that order. -/
theorem add_to_circuit_replay_order_witness :
    add_to_circuit (fun _ _ => [⟨"H", [[0]]⟩, ⟨"CX", [[1, 2]]⟩, ⟨"S", [[0]]⟩])
        ⟨[], [], fun _ => none, fun _ => none⟩ [] =
      ([Gate.h 0, Gate.cnot 1 2, Gate.s 0], none) := by
  have h := add_to_circuit_replay_order
      (fun _ _ => [⟨"H", [[0]]⟩, ⟨"CX", [[1, 2]]⟩, ⟨"S", [[0]]⟩])
      ⟨[], [], fun _ => none, fun _ => none⟩ [] ([], []) rfl ?_
  · rw [h]
    decide
  · intro instr hmem
    simp only [List.mem_cons, List.not_mem_nil, or_false] at hmem
    rcases hmem with rfl | rfl | rfl
    · refine Or.inr ⟨Or.inl rfl, fun g hg => ?_⟩
      simp only [List.mem_singleton] at hg
      exact ⟨0, hg⟩
    · refine Or.inl ⟨rfl, fun g hg => ?_⟩
      simp only [List.mem_singleton] at hg
      exact ⟨1, 2, hg⟩
    · refine Or.inr ⟨Or.inr rfl, fun g hg => ?_⟩
      simp only [List.mem_singleton] at hg
      exact ⟨0, hg⟩

end GSC
